import Mathlib

/-!
# Verification of the voice-orchestrator challenge lifecycle engine

A shallow embedding, in Lean 4, of the challenge lifecycle engine of the
voice-orchestrator repository:

* `app/utils/text_normalizer.py`  (`TextNormalizer.normalize`)
* `app/domain/models.py`          (`Challenge` and its methods)
* `app/domain/enums.py`           (`ClientType`, `ChallengeStatus`)
* `app/repositories/implementations/in_memory_challenge_repo.py`
  (`InMemoryChallengeRepository`)
* `app/services/challenge_service.py` (`ChallengeService`)

Modelling conventions:

* Python `str` is modelled as `String` / `List Char`; `str.lower()` is modelled
  per character by `Char.toLower` (the repository's vocabulary and inputs are
  ASCII, where the two agree).
* Python `datetime` values are modelled as `Int` timestamps; `timedelta(seconds=n)`
  addition becomes integer addition and datetime comparison becomes integer
  comparison (only ordering and second-addition are used by the code).
* Each namespace of the in-memory store (a Python `dict` with unique keys) is
  modelled as an association list `List (String × Challenge)`; `dict` insertion
  appends, assignment to an existing key replaces in place, and `del` removes
  the entries with that key.
* Python exceptions (`ValueError` raised by `add`/`update`) are modelled with
  `Except RepoError`.
* `random.choice` inside `generate_challenge_phrase` is modelled by passing the
  generated raw phrase as an explicit argument to `create_challenge`.
-/

namespace VoiceOrchestrator

/-! ## Text normalizer (`app/utils/text_normalizer.py`) -/

/-- The characters Python's `str.strip()` / `str.split()` treat as whitespace. -/
def pySpace (c : Char) : Bool :=
  c = ' ' || c = '\t' || c = '\n' || c = '\r' || c = '\x0b' || c = '\x0c'

/-- Python `str.strip()`: drop leading and trailing whitespace. -/
def stripL (l : List Char) : List Char :=
  ((l.dropWhile pySpace).reverse.dropWhile pySpace).reverse

/-- Accumulator worker for `wordsL` (Python `str.split()` with no separator):
split on whitespace runs, dropping empty pieces. -/
def wordsAux : List Char → List Char → List (List Char)
  | [], acc => if acc.isEmpty then [] else [acc.reverse]
  | c :: cs, acc =>
    if pySpace c then
      if acc.isEmpty then wordsAux cs [] else acc.reverse :: wordsAux cs []
    else wordsAux cs (c :: acc)

/-- Python `text.split()`: the whitespace-separated words of `text`. -/
def wordsL (l : List Char) : List (List Char) := wordsAux l []

/-- Python `' '.join(ws)`: interleave a single space between words. -/
def joinWords : List (List Char) → List Char
  | [] => []
  | [w] => w
  | w :: ws => w ++ ' ' :: joinWords ws

/-- Python `str.replace`: leftmost-first, non-overlapping; after a replacement
the scan resumes after the consumed pattern. Structural recursion on a fuel
argument so that the definition reduces in the kernel; every scan step consumes
at least one input character, so fuel `l.length` (as supplied by `pyReplace`)
is never exhausted for the nonempty patterns the normalizer uses. -/
def replaceAux (pat rep : List Char) : Nat → List Char → List Char
  | _, [] => []
  | 0, l => l
  | fuel + 1, c :: cs =>
    if pat.isPrefixOf (c :: cs) then rep ++ replaceAux pat rep fuel ((c :: cs).drop pat.length)
    else c :: replaceAux pat rep fuel cs

/-- Python `text.replace(pat, rep)`. All patterns in the normalizer's tables
are nonempty, for which this agrees with Python; the empty pattern (where
Python would interleave `rep` everywhere) is not used. -/
def pyReplace (pat rep l : List Char) : List Char :=
  replaceAux pat rep l.length l

/-- Model of `TextNormalizer.REPLACEMENTS` followed by the ten entries derived from
`TextNormalizer.DIGIT_MAP` (`text.replace(f' {digit} ', f' {word} ')`), in the
iteration order of the two Python dicts (insertion order). -/
def normalizeReplacements : List (List Char × List Char) :=
  [ (" for ".data, " four ".data)
  , (" to ".data, " two ".data)
  , (" too ".data, " two ".data)
  , (" won ".data, " one ".data)
  , (" ate ".data, " eight ".data)
  , (" 0 ".data, " zero ".data)
  , (" 1 ".data, " one ".data)
  , (" 2 ".data, " two ".data)
  , (" 3 ".data, " three ".data)
  , (" 4 ".data, " four ".data)
  , (" 5 ".data, " five ".data)
  , (" 6 ".data, " six ".data)
  , (" 7 ".data, " seven ".data)
  , (" 8 ".data, " eight ".data)
  , (" 9 ".data, " nine ".data) ]

/-- Applying all replacement passes in table order (the two `for` loops in
`TextNormalizer.normalize`). -/
def applyReplacements (l : List Char) : List Char :=
  normalizeReplacements.foldl (fun acc pr => pyReplace pr.1 pr.2 acc) l

/-- Model of `TextNormalizer.normalize` on `List Char`: lowercase and strip, pad with
one space on each side, run the replacement passes, then collapse whitespace
(`' '.join(text.split())`). -/
def normalizeL (l : List Char) : List Char :=
  let t1 := stripL (l.map Char.toLower)
  let t2 := ' ' :: t1 ++ [' ']
  let t3 := applyReplacements t2
  joinWords (wordsL t3)

/-- Model of `TextNormalizer.normalize : str -> str`. -/
def normalize (text : String) : String := ⟨normalizeL text.data⟩

/-! ## Domain model (`app/domain/enums.py`, `app/domain/models.py`) -/

/-- Model of `ClientType`: the two client namespaces. -/
inductive ClientType : Type
  | alexa
  | futureproofhome
deriving DecidableEq, Repr

/-- Model of `ChallengeStatus`. -/
inductive ChallengeStatus : Type
  | pending
  | validated
  | expired
  | failed
deriving DecidableEq, Repr

/-- The `Challenge` dataclass after `__post_init__` has run, so `expires_at`
is always set. Timestamps are `Int` (see the header). -/
structure Challenge : Type where
  identifier : String
  phrase : String
  client_type : ClientType
  status : ChallengeStatus
  created_at : Int
  home_id : Option String := none
  attempts : Nat := 0
  intent : Option String := none
  expires_at : Int
deriving DecidableEq, Repr

/-- Constructing a `Challenge`, including `__post_init__`: when `expires_at`
is not supplied it defaults to `created_at` plus a hard-coded 60 seconds. -/
def Challenge.make (identifier phrase : String) (client_type : ClientType)
    (status : ChallengeStatus) (created_at : Int) (home_id : Option String)
    (attempts : Nat) (intent : Option String) (expires_at : Option Int) : Challenge :=
  { identifier := identifier, phrase := phrase, client_type := client_type,
    status := status, created_at := created_at, home_id := home_id,
    attempts := attempts, intent := intent,
    expires_at := expires_at.getD (created_at + 60) }

/-- Model of `Challenge.is_expired(current_time)`: strict comparison. -/
def Challenge.is_expired (c : Challenge) (current_time : Int) : Bool :=
  current_time > c.expires_at

/-- Model of `Challenge.increment_attempts`. -/
def Challenge.increment_attempts (c : Challenge) : Challenge :=
  { c with attempts := c.attempts + 1 }

/-- Model of `Challenge.mark_validated`. -/
def Challenge.mark_validated (c : Challenge) : Challenge :=
  { c with status := ChallengeStatus.validated }

/-- Model of `Challenge.mark_expired`. -/
def Challenge.mark_expired (c : Challenge) : Challenge :=
  { c with status := ChallengeStatus.expired }

/-- Model of `Challenge.mark_failed`. -/
def Challenge.mark_failed (c : Challenge) : Challenge :=
  { c with status := ChallengeStatus.failed }

/-! ## In-memory repository
(`app/repositories/implementations/in_memory_challenge_repo.py`)

`self._storage` is a dict from the two `ClientType` values to per-namespace
dicts keyed by identifier. Each namespace dict is modelled as an association
list; the engine's add discipline keeps its keys distinct. -/

/-- The errors the repository raises (`ValueError` with the respective
message). -/
inductive RepoError : Type
  | alreadyExists
  | notFound
deriving DecidableEq, Repr

/-- The repository storage: one namespace per `ClientType`. -/
structure Store : Type where
  alexa : List (String × Challenge)
  futureproofhome : List (String × Challenge)
deriving DecidableEq, Repr

/-- The initial storage built by `__init__`: both namespaces empty. -/
def emptyStore : Store := ⟨[], []⟩

/-- Model of `self._storage[client_type.value]`. -/
def Store.storageOf (st : Store) : ClientType → List (String × Challenge)
  | ClientType.alexa => st.alexa
  | ClientType.futureproofhome => st.futureproofhome

/-- Replace one namespace of the storage. -/
def Store.setStorage (st : Store) : ClientType → List (String × Challenge) → Store
  | ClientType.alexa, l => { st with alexa := l }
  | ClientType.futureproofhome, l => { st with futureproofhome := l }

/-- Model of `client_storage.get(identifier)` on one namespace dict. -/
def lookupNs (l : List (String × Challenge)) (identifier : String) : Option Challenge :=
  (l.find? (fun e => e.1 = identifier)).map (fun e => e.2)

/-- Model of `client_storage[identifier] = entity` for a fresh key (dict insertion
appends in insertion order). -/
def insertNs (l : List (String × Challenge)) (identifier : String) (c : Challenge) :
    List (String × Challenge) :=
  l ++ [(identifier, c)]

/-- Model of `client_storage[identifier] = entity` for an existing key: in-place
replacement. -/
def updateNs (l : List (String × Challenge)) (identifier : String) (c : Challenge) :
    List (String × Challenge) :=
  l.map (fun e => if e.1 = identifier then (identifier, c) else e)

/-- Model of `del client_storage[identifier]` (dict keys are unique). -/
def deleteNs (l : List (String × Challenge)) (identifier : String) :
    List (String × Challenge) :=
  l.filter (fun e => ¬ e.1 = identifier)

/-- Model of `InMemoryChallengeRepository.add`: raise `AlreadyExists` when the key is
occupied, otherwise store under `(entity.client_type, entity.identifier)`. -/
def Store.add (st : Store) (entity : Challenge) : Except RepoError Store :=
  let client_storage := st.storageOf entity.client_type
  if (lookupNs client_storage entity.identifier).isSome then
    Except.error RepoError.alreadyExists
  else
    Except.ok (st.setStorage entity.client_type
      (insertNs client_storage entity.identifier entity))

/-- Model of `InMemoryChallengeRepository.get_by_identifier`. -/
def Store.get_by_identifier (st : Store) (identifier : String) (client_type : ClientType) :
    Option Challenge :=
  lookupNs (st.storageOf client_type) identifier

/-- Model of `InMemoryChallengeRepository.update`: raise `NotFound` when the key is
absent, otherwise replace in place. -/
def Store.update (st : Store) (entity : Challenge) : Except RepoError Store :=
  let client_storage := st.storageOf entity.client_type
  if (lookupNs client_storage entity.identifier).isSome then
    Except.ok (st.setStorage entity.client_type
      (updateNs client_storage entity.identifier entity))
  else
    Except.error RepoError.notFound

/-- Model of `InMemoryChallengeRepository.delete_by_identifier`: remove if present,
report whether it existed. -/
def Store.delete_by_identifier (st : Store) (identifier : String) (client_type : ClientType) :
    Bool × Store :=
  let client_storage := st.storageOf client_type
  if (lookupNs client_storage identifier).isSome then
    (true, st.setStorage client_type (deleteNs client_storage identifier))
  else
    (false, st)

/-- Model of `InMemoryChallengeRepository.exists_for_identifier`. -/
def Store.exists_for_identifier (st : Store) (identifier : String) (client_type : ClientType) :
    Bool :=
  (lookupNs (st.storageOf client_type) identifier).isSome

/-- One namespace of `InMemoryChallengeRepository.delete_expired`: collect the
identifiers of entries with `challenge.is_expired(before)`, then delete each
collected identifier, counting one deletion per identifier. -/
def sweepNs (before : Int) (l : List (String × Challenge)) :
    Nat × List (String × Challenge) :=
  let expired_identifiers := (l.filter (fun e => e.2.is_expired before)).map (fun e => e.1)
  (expired_identifiers.length, expired_identifiers.foldl deleteNs l)

/-- Model of `InMemoryChallengeRepository.delete_expired`: sweep every namespace (the
loop over `self._storage.values()`), returning the total count of deletions. -/
def Store.delete_expired (st : Store) (before : Int) : Nat × Store :=
  ((sweepNs before st.alexa).1 + (sweepNs before st.futureproofhome).1,
   ⟨(sweepNs before st.alexa).2, (sweepNs before st.futureproofhome).2⟩)

/-- Model of `InMemoryChallengeRepository.count_by_client_type`. -/
def Store.count_by_client_type (st : Store) (client_type : ClientType) : Nat :=
  (st.storageOf client_type).length

/-! ## Challenge service (`app/services/challenge_service.py`) -/

/-- Model of `ChallengeSettings`. -/
structure ChallengeSettings : Type where
  words : List String
  numbers : List String
  expiry_seconds : Int := 60
  max_attempts : Nat := 3
deriving Repr

/-- Model of `ValidationResult`. -/
structure ValidationResult : Type where
  is_valid : Bool
  message : String
  intent : Option String := none
  challenge : Option Challenge := none
deriving DecidableEq, Repr

/-- Model of `ChallengeService.generate_challenge_phrase`, with `random.choice`
modelled by explicit indices into the two vocabularies:
`f"{word} {number}"`. -/
def generate_challenge_phrase (s : ChallengeSettings) (wi ni : Nat) : String :=
  s.words.getD wi "" ++ " " ++ s.numbers.getD ni ""

/-- Model of `ChallengeService.create_challenge`, with the output of
`generate_challenge_phrase` passed in as `rawPhrase` (its only randomness).
Returns the created challenge and the updated store; propagates the
repository's `AlreadyExists` error unchanged. -/
def create_challenge (s : ChallengeSettings) (st : Store) (identifier : String)
    (client_type : ClientType) (intent : Option String) (now : Int)
    (rawPhrase : String) : Except RepoError (Challenge × Store) :=
  let normalized_phrase := normalize rawPhrase
  let expires_at := now + s.expiry_seconds
  let challenge := Challenge.make identifier normalized_phrase client_type
    ChallengeStatus.pending now none 0 intent (some expires_at)
  match st.add challenge with
  | Except.ok st' => Except.ok (challenge, st')
  | Except.error e => Except.error e

/-- Model of `ChallengeService.validate_challenge`. Returns the `ValidationResult`
together with the store after the call. In the mismatch-with-attempts-left
branch the code calls `repository.update` with a challenge it has just looked
up, so the update cannot raise; the model applies the in-place replacement
directly (keyed, as in the code, by the entity's own `identifier` and
`client_type`). -/
def validate_challenge (s : ChallengeSettings) (st : Store) (identifier : String)
    (spoken_response : String) (client_type : ClientType) (now : Int) :
    ValidationResult × Store :=
  match st.get_by_identifier identifier client_type with
  | none =>
    ({ is_valid := false, message := "No active challenge found. Please start over.",
       intent := none, challenge := none }, st)
  | some challenge =>
    if challenge.is_expired now then
      let c := challenge.mark_expired
      ({ is_valid := false, message := "Challenge expired. Please start over.",
         intent := none, challenge := some c },
       (st.delete_by_identifier identifier client_type).2)
    else
      let c := challenge.increment_attempts
      if c.attempts > s.max_attempts then
        let cf := c.mark_failed
        ({ is_valid := false, message := "Maximum attempts exceeded. Please start over.",
           intent := none, challenge := some cf },
         (st.delete_by_identifier identifier client_type).2)
      else
        let normalized_response := normalize spoken_response
        if normalized_response = c.phrase then
          let cv := c.mark_validated
          ({ is_valid := true, message := "Voice verified successfully",
             intent := cv.intent, challenge := some cv },
           (st.delete_by_identifier identifier client_type).2)
        else
          let remaining : Int := (s.max_attempts : Int) - (c.attempts : Int)
          if remaining > 0 then
            ({ is_valid := false,
               message := "Incorrect response. " ++ toString remaining ++ " attempts remaining.",
               intent := none, challenge := some c },
             st.setStorage c.client_type
               (updateNs (st.storageOf c.client_type) c.identifier c))
          else
            let cf := c.mark_failed
            ({ is_valid := false,
               message := "Maximum attempts exceeded. Please start over.",
               intent := none, challenge := some cf },
             (st.delete_by_identifier identifier client_type).2)

/-- Model of `ChallengeService.cancel_challenge`: unconditional delete, reporting
whether anything was removed. -/
def cancel_challenge (st : Store) (identifier : String) (client_type : ClientType) :
    Bool × Store :=
  st.delete_by_identifier identifier client_type

/-- Model of `ChallengeService.cleanup_expired_challenges` with an explicit `before`
timestamp: delegates to the repository sweep. -/
def cleanup_expired_challenges (st : Store) (before : Int) : Nat × Store :=
  st.delete_expired before

/-- The stores reachable from the empty store through the engine operations
(`create_challenge`, `validate_challenge`, `cancel_challenge`,
`cleanup_expired_challenges`) under one fixed settings value. A failed create
leaves the store unchanged, so it introduces no new state. -/
inductive Reachable (s : ChallengeSettings) : Store → Prop
  | init : Reachable s emptyStore
  | create {st c st' identifier client_type intent now rawPhrase} :
      Reachable s st →
      create_challenge s st identifier client_type intent now rawPhrase =
        Except.ok (c, st') →
      Reachable s st'
  | validate {st identifier spoken_response client_type now} :
      Reachable s st →
      Reachable s (validate_challenge s st identifier spoken_response client_type now).2
  | cancel {st identifier client_type} :
      Reachable s st →
      Reachable s (cancel_challenge st identifier client_type).2
  | sweep {st before} :
      Reachable s st →
      Reachable s (cleanup_expired_challenges st before).2

/-! ## Concrete fixtures used by witnesses and counterexamples -/

/-- The spec's end-to-end vocabulary: `words=["ocean"]`, `numbers=["four"]`,
default expiry 60 s, default `max_attempts` 3. -/
def testSettings : ChallengeSettings := { words := ["ocean"], numbers := ["four"] }

/-- Settings whose configured expiry differs from the dataclass default of 60. -/
def settings120 : ChallengeSettings :=
  { words := ["ocean"], numbers := ["four"], expiry_seconds := 120 }

/-- A fresh pending challenge as `create_challenge` builds it at time 0. -/
def testChallenge : Challenge :=
  { identifier := "s1", phrase := "ocean four", client_type := ClientType.alexa,
    status := ChallengeStatus.pending, created_at := 0, attempts := 0, expires_at := 60 }

/-- A store holding only `testChallenge` in the alexa namespace. -/
def testStore : Store := ⟨[("s1", testChallenge)], []⟩

/-- A challenge in the futureproofhome namespace under the same identifier. -/
def testChallengeF : Challenge :=
  { identifier := "s1", phrase := "ocean two", client_type := ClientType.futureproofhome,
    status := ChallengeStatus.pending, created_at := 0, attempts := 0, expires_at := 60 }

/-- A store holding the same identifier in both namespaces. -/
def testStoreBoth : Store := ⟨[("s1", testChallenge)], [("s1", testChallengeF)]⟩

/-- A store whose only challenge is already expired at time 20. -/
def expiredStore : Store :=
  ⟨[("s1", { testChallenge with expires_at := 10 })], []⟩

/-- The challenge `create_challenge testSettings emptyStore "s1" alexa none 0
"ocean four"` builds. -/
def cW : Challenge :=
  Challenge.make "s1" (normalize "ocean four") ClientType.alexa ChallengeStatus.pending
    0 none 0 none (some (0 + testSettings.expiry_seconds))

/-- The store that same create call produces: a store reachable from the empty
store through one engine operation. -/
def stW : Store := ⟨[("s1", cW)], []⟩

/-- A store with entries on both sides of the sweep cutoff 50, in both
namespaces. -/
def sweepStore : Store :=
  ⟨[("a", { testChallenge with identifier := "a", expires_at := 10 }),
    ("b", { testChallenge with identifier := "b", expires_at := 100 })],
   [("c", { testChallengeF with identifier := "c", expires_at := 49 })]⟩

/-! ## Helper lemmas about the store -/

example : normalize "ocean 4" = "ocean four" := by decide
example : normalize "mountain FOR" = "mountain four" := by decide
example : normalize "  sunset   to  " = "sunset two" := by decide
example : normalize "for for" = "four for" := by decide
example : normalize "four for" = "four four" := by decide

theorem storageOf_setStorage_same (st : Store) (ct : ClientType)
    (l : List (String × Challenge)) : (st.setStorage ct l).storageOf ct = l := by
  cases ct <;> rfl

theorem storageOf_setStorage_ne (st : Store) (ct ct' : ClientType)
    (l : List (String × Challenge)) (h : ct' ≠ ct) :
    (st.setStorage ct l).storageOf ct' = st.storageOf ct' := by
  cases ct <;> cases ct' <;> simp_all [Store.setStorage, Store.storageOf]

theorem lookupNs_eq_some_mem {l : List (String × Challenge)} {identifier : String}
    {c : Challenge} (h : lookupNs l identifier = some c) : (identifier, c) ∈ l := by
  unfold lookupNs at h
  cases hf : l.find? (fun e => e.1 = identifier) with
  | none => rw [hf] at h; simp at h
  | some e =>
    rw [hf] at h
    simp at h
    have hmem := List.mem_of_find?_eq_some hf
    have hkey := List.find?_some hf
    simp at hkey
    cases e with
    | mk k v => cases hkey; cases h; exact hmem

theorem lookupNs_cons (e : String × Challenge) (l : List (String × Challenge))
    (identifier : String) :
    lookupNs (e :: l) identifier =
      if e.1 = identifier then some e.2 else lookupNs l identifier := by
  unfold lookupNs
  by_cases h : e.1 = identifier <;> simp [List.find?, h]

theorem deleteNs_cons (e : String × Challenge) (l : List (String × Challenge))
    (identifier : String) :
    deleteNs (e :: l) identifier =
      if e.1 = identifier then deleteNs l identifier else e :: deleteNs l identifier := by
  unfold deleteNs
  by_cases h : e.1 = identifier <;> simp [List.filter, h]

theorem updateNs_cons (e : String × Challenge) (l : List (String × Challenge))
    (identifier : String) (c : Challenge) :
    updateNs (e :: l) identifier c =
      (if e.1 = identifier then (identifier, c) else e) :: updateNs l identifier c := by
  unfold updateNs
  by_cases h : e.1 = identifier <;> simp [h]

theorem lookup_deleteNs (l : List (String × Challenge)) (identifier : String) :
    lookupNs (deleteNs l identifier) identifier = none := by
  induction l with
  | nil => rfl
  | cons e l ih =>
    rw [deleteNs_cons]
    by_cases h : e.1 = identifier
    · rw [if_pos h]; exact ih
    · rw [if_neg h, lookupNs_cons, if_neg h]; exact ih

theorem lookup_deleteNs_ne (l : List (String × Challenge)) (identifier other : String)
    (h : other ≠ identifier) :
    lookupNs (deleteNs l identifier) other = lookupNs l other := by
  induction l with
  | nil => rfl
  | cons e l ih =>
    rw [deleteNs_cons, lookupNs_cons]
    by_cases he : e.1 = identifier
    · have ho : ¬ e.1 = other := by rw [he]; exact fun hh => h hh.symm
      rw [if_pos he, if_neg ho]; exact ih
    · rw [if_neg he, lookupNs_cons]
      by_cases ho : e.1 = other
      · rw [if_pos ho, if_pos ho]
      · rw [if_neg ho, if_neg ho]; exact ih

theorem lookup_updateNs (l : List (String × Challenge)) (identifier : String)
    (c c₀ : Challenge) (h : lookupNs l identifier = some c₀) :
    lookupNs (updateNs l identifier c) identifier = some c := by
  induction l with
  | nil => simp [lookupNs] at h
  | cons e l ih =>
    rw [updateNs_cons, lookupNs_cons]
    by_cases he : e.1 = identifier
    · rw [if_pos he]; simp
    · rw [if_neg he]
      simp only [he, if_false]
      rw [lookupNs_cons, if_neg he] at h
      exact ih h

theorem lookup_updateNs_ne (l : List (String × Challenge)) (identifier other : String)
    (c : Challenge) (h : other ≠ identifier) :
    lookupNs (updateNs l identifier c) other = lookupNs l other := by
  induction l with
  | nil => rfl
  | cons e l ih =>
    rw [updateNs_cons, lookupNs_cons, lookupNs_cons]
    by_cases he : e.1 = identifier
    · rw [if_pos he]
      have h1 : ¬ (identifier, c).1 = other := fun hh => h hh.symm
      have h2 : ¬ e.1 = other := by rw [he]; exact fun hh => h hh.symm
      rw [if_neg h1, if_neg h2]; exact ih
    · rw [if_neg he]
      by_cases ho : e.1 = other
      · rw [if_pos ho, if_pos ho]
      · rw [if_neg ho, if_neg ho]; exact ih

theorem mem_updateNs {e : String × Challenge} {l : List (String × Challenge)}
    {identifier : String} {c : Challenge} (h : e ∈ updateNs l identifier c) :
    e ∈ l ∨ e = (identifier, c) := by
  unfold updateNs at h
  rcases List.mem_map.1 h with ⟨e₀, he₀, heq⟩
  by_cases hk : e₀.1 = identifier
  · right
    rw [if_pos hk] at heq
    exact heq.symm
  · left
    rw [if_neg hk] at heq
    exact heq ▸ he₀

theorem mem_deleteNs {e : String × Challenge} {l : List (String × Challenge)}
    {identifier : String} (h : e ∈ deleteNs l identifier) : e ∈ l :=
  List.mem_of_mem_filter h

theorem foldl_deleteNs_subset (ids : List String) :
    ∀ l : List (String × Challenge), ∀ e ∈ ids.foldl deleteNs l, e ∈ l := by
  induction ids with
  | nil => intro l e he; exact he
  | cons i ids ih =>
    intro l e he
    exact mem_deleteNs (ih (deleteNs l i) e he)

theorem mem_sweepNs {e : String × Challenge} {l : List (String × Challenge)}
    {before : Int} (h : e ∈ (sweepNs before l).2) : e ∈ l :=
  foldl_deleteNs_subset _ l e h

theorem get_delete_self (st : Store) (identifier : String) (ct : ClientType) :
    ((st.delete_by_identifier identifier ct).2).get_by_identifier identifier ct = none := by
  unfold Store.delete_by_identifier Store.get_by_identifier
  by_cases h : (lookupNs (st.storageOf ct) identifier).isSome
  · simp only [h, if_true]
    rw [storageOf_setStorage_same]
    exact lookup_deleteNs _ _
  · simp only [h, if_false]
    exact Option.not_isSome_iff_eq_none.1 (by simpa using h)

theorem delete_frame (st : Store) (identifier : String) (ct ct2 : ClientType)
    (h : ct2 ≠ ct) :
    ((st.delete_by_identifier identifier ct).2).storageOf ct2 = st.storageOf ct2 := by
  unfold Store.delete_by_identifier
  by_cases hc : (lookupNs (st.storageOf ct) identifier).isSome
  · simp only [hc, if_true]
    exact storageOf_setStorage_ne _ _ _ _ h
  · simp [hc]

/-! ## Branch characterizations of `validate_challenge` -/

theorem validate_no_challenge (s : ChallengeSettings) (st : Store)
    (identifier spoken_response : String) (ct : ClientType) (now : Int)
    (hget : st.get_by_identifier identifier ct = none) :
    validate_challenge s st identifier spoken_response ct now =
      ({ is_valid := false, message := "No active challenge found. Please start over.",
         intent := none, challenge := none }, st) := by
  unfold validate_challenge
  rw [hget]

theorem validate_expired_branch (s : ChallengeSettings) (st : Store)
    (identifier spoken_response : String) (ct : ClientType) (now : Int)
    (c : Challenge) (hget : st.get_by_identifier identifier ct = some c)
    (hexp : now > c.expires_at) :
    validate_challenge s st identifier spoken_response ct now =
      ({ is_valid := false, message := "Challenge expired. Please start over.",
         intent := none, challenge := some c.mark_expired },
       (st.delete_by_identifier identifier ct).2) := by
  unfold validate_challenge
  rw [hget]
  simp only [Challenge.is_expired, decide_eq_true_eq, if_pos hexp]

theorem validate_over_max_branch (s : ChallengeSettings) (st : Store)
    (identifier spoken_response : String) (ct : ClientType) (now : Int)
    (c : Challenge) (hget : st.get_by_identifier identifier ct = some c)
    (hexp : ¬ now > c.expires_at) (hover : c.attempts + 1 > s.max_attempts) :
    validate_challenge s st identifier spoken_response ct now =
      ({ is_valid := false, message := "Maximum attempts exceeded. Please start over.",
         intent := none, challenge := some c.increment_attempts.mark_failed },
       (st.delete_by_identifier identifier ct).2) := by
  unfold validate_challenge
  rw [hget]
  simp only [Challenge.is_expired, decide_eq_true_eq, if_neg hexp,
    Challenge.increment_attempts, if_pos hover]

theorem validate_success_branch (s : ChallengeSettings) (st : Store)
    (identifier spoken_response : String) (ct : ClientType) (now : Int)
    (c : Challenge) (hget : st.get_by_identifier identifier ct = some c)
    (hexp : ¬ now > c.expires_at) (hover : ¬ c.attempts + 1 > s.max_attempts)
    (hmatch : normalize spoken_response = c.phrase) :
    validate_challenge s st identifier spoken_response ct now =
      ({ is_valid := true, message := "Voice verified successfully",
         intent := c.intent, challenge := some c.increment_attempts.mark_validated },
       (st.delete_by_identifier identifier ct).2) := by
  unfold validate_challenge
  rw [hget]
  simp only [Challenge.is_expired, decide_eq_true_eq, if_neg hexp,
    Challenge.increment_attempts, if_neg hover, Challenge.mark_validated, if_pos hmatch]

theorem validate_mismatch_rem_branch (s : ChallengeSettings) (st : Store)
    (identifier spoken_response : String) (ct : ClientType) (now : Int)
    (c : Challenge) (hget : st.get_by_identifier identifier ct = some c)
    (hexp : ¬ now > c.expires_at) (hover : ¬ c.attempts + 1 > s.max_attempts)
    (hmatch : normalize spoken_response ≠ c.phrase)
    (hrem : (s.max_attempts : Int) - ((c.attempts : Int) + 1) > 0) :
    validate_challenge s st identifier spoken_response ct now =
      ({ is_valid := false,
         message := "Incorrect response. " ++
           toString ((s.max_attempts : Int) - ((c.attempts : Int) + 1)) ++
           " attempts remaining.",
         intent := none, challenge := some c.increment_attempts },
       st.setStorage c.client_type
         (updateNs (st.storageOf c.client_type) c.identifier c.increment_attempts)) := by
  unfold validate_challenge
  rw [hget]
  simp only [Challenge.is_expired, decide_eq_true_eq, if_neg hexp,
    Challenge.increment_attempts, if_neg hover, if_neg hmatch]
  simp only [Nat.cast_add, Nat.cast_one, if_pos (by omega : (s.max_attempts : Int) - ((c.attempts : Int) + 1) > 0)]

theorem validate_mismatch_final_branch (s : ChallengeSettings) (st : Store)
    (identifier spoken_response : String) (ct : ClientType) (now : Int)
    (c : Challenge) (hget : st.get_by_identifier identifier ct = some c)
    (hexp : ¬ now > c.expires_at) (hover : ¬ c.attempts + 1 > s.max_attempts)
    (hmatch : normalize spoken_response ≠ c.phrase)
    (hrem : ¬ (s.max_attempts : Int) - ((c.attempts : Int) + 1) > 0) :
    validate_challenge s st identifier spoken_response ct now =
      ({ is_valid := false, message := "Maximum attempts exceeded. Please start over.",
         intent := none, challenge := some c.increment_attempts.mark_failed },
       (st.delete_by_identifier identifier ct).2) := by
  unfold validate_challenge
  rw [hget]
  simp only [Challenge.is_expired, decide_eq_true_eq, if_neg hexp,
    Challenge.increment_attempts, if_neg hover, if_neg hmatch]
  simp only [Nat.cast_add, Nat.cast_one, if_neg (by omega : ¬ (s.max_attempts : Int) - ((c.attempts : Int) + 1) > 0)]

theorem validate_frame (s : ChallengeSettings) (st : Store)
    (identifier spoken_response : String) (ct ct2 : ClientType) (now : Int)
    (hne : ct2 ≠ ct)
    (hcons : ∀ c, st.get_by_identifier identifier ct = some c → c.client_type = ct) :
    ((validate_challenge s st identifier spoken_response ct now).2).storageOf ct2 =
      st.storageOf ct2 := by
  cases hget : st.get_by_identifier identifier ct with
  | none => rw [validate_no_challenge s st identifier spoken_response ct now hget]
  | some c =>
    have hct := hcons c hget
    by_cases hexp : now > c.expires_at
    · rw [validate_expired_branch s st identifier spoken_response ct now c hget hexp]
      exact delete_frame st identifier ct ct2 hne
    · by_cases hover : c.attempts + 1 > s.max_attempts
      · rw [validate_over_max_branch s st identifier spoken_response ct now c hget hexp hover]
        exact delete_frame st identifier ct ct2 hne
      · by_cases hmatch : normalize spoken_response = c.phrase
        · rw [validate_success_branch s st identifier spoken_response ct now c hget hexp
            hover hmatch]
          exact delete_frame st identifier ct ct2 hne
        · by_cases hrem : (s.max_attempts : Int) - ((c.attempts : Int) + 1) > 0
          · rw [validate_mismatch_rem_branch s st identifier spoken_response ct now c hget
              hexp hover hmatch hrem]
            rw [hct]
            exact storageOf_setStorage_ne _ _ _ _ hne
          · rw [validate_mismatch_final_branch s st identifier spoken_response ct now c hget
              hexp hover hmatch hrem]
            exact delete_frame st identifier ct ct2 hne

theorem mem_delete_store {st : Store} {identifier : String} {ct ct' : ClientType}
    {e : String × Challenge}
    (he : e ∈ ((st.delete_by_identifier identifier ct).2).storageOf ct') :
    e ∈ st.storageOf ct' := by
  unfold Store.delete_by_identifier at he
  by_cases hc : (lookupNs (st.storageOf ct) identifier).isSome
  · simp only [hc, if_true] at he
    by_cases hct : ct' = ct
    · subst hct
      rw [storageOf_setStorage_same] at he
      exact mem_deleteNs he
    · rw [storageOf_setStorage_ne _ _ _ _ hct] at he
      exact he
  · simp only [hc, if_false] at he
    simpa using he

theorem mem_sweep_store {st : Store} {before : Int} {ct' : ClientType}
    {e : String × Challenge}
    (he : e ∈ ((st.delete_expired before).2).storageOf ct') :
    e ∈ st.storageOf ct' := by
  cases ct' with
  | alexa => exact mem_sweepNs he
  | futureproofhome => exact mem_sweepNs he

theorem create_ok_spec {s : ChallengeSettings} {st : Store} {identifier : String}
    {ct : ClientType} {intent : Option String} {now : Int} {rawPhrase : String}
    {c : Challenge} {st' : Store}
    (h : create_challenge s st identifier ct intent now rawPhrase = Except.ok (c, st')) :
    c = Challenge.make identifier (normalize rawPhrase) ct ChallengeStatus.pending now
      none 0 intent (some (now + s.expiry_seconds)) ∧
    st' = st.setStorage ct
      (insertNs (st.storageOf ct) identifier
        (Challenge.make identifier (normalize rawPhrase) ct ChallengeStatus.pending now
          none 0 intent (some (now + s.expiry_seconds)))) := by
  simp only [create_challenge, Store.add, Challenge.make] at h
  by_cases hocc : (lookupNs (st.storageOf ct) identifier).isSome
  · rw [if_pos hocc] at h
    cases h
  · rw [if_neg hocc] at h
    cases h
    exact ⟨rfl, rfl⟩

theorem mem_insert_store {st : Store} {identifier : String} {ct ct' : ClientType}
    {c : Challenge} {e : String × Challenge}
    (he : e ∈ (st.setStorage ct (insertNs (st.storageOf ct) identifier c)).storageOf ct') :
    e ∈ st.storageOf ct' ∨ e = (identifier, c) := by
  by_cases hct : ct' = ct
  · subst hct
    rw [storageOf_setStorage_same] at he
    unfold insertNs at he
    rcases List.mem_append.1 he with h | h
    · exact Or.inl h
    · exact Or.inr (List.mem_singleton.1 h)
  · rw [storageOf_setStorage_ne _ _ _ _ hct] at he
    exact Or.inl he

theorem mem_validate_store {s : ChallengeSettings} {st : Store}
    {identifier spoken_response : String} {ct ct' : ClientType} {now : Int}
    {e : String × Challenge}
    (he : e ∈ ((validate_challenge s st identifier spoken_response ct now).2).storageOf ct') :
    e ∈ st.storageOf ct' ∨
    ∃ c, st.get_by_identifier identifier ct = some c ∧
      ¬ now > c.expires_at ∧ ¬ c.attempts + 1 > s.max_attempts ∧
      (s.max_attempts : Int) - ((c.attempts : Int) + 1) > 0 ∧
      e = (c.identifier, c.increment_attempts) := by
  cases hget : st.get_by_identifier identifier ct with
  | none =>
    rw [validate_no_challenge s st identifier spoken_response ct now hget] at he
    exact Or.inl he
  | some c =>
    by_cases hexp : now > c.expires_at
    · rw [validate_expired_branch s st identifier spoken_response ct now c hget hexp] at he
      exact Or.inl (mem_delete_store he)
    · by_cases hover : c.attempts + 1 > s.max_attempts
      · rw [validate_over_max_branch s st identifier spoken_response ct now c hget hexp
          hover] at he
        exact Or.inl (mem_delete_store he)
      · by_cases hmatch : normalize spoken_response = c.phrase
        · rw [validate_success_branch s st identifier spoken_response ct now c hget hexp
            hover hmatch] at he
          exact Or.inl (mem_delete_store he)
        · by_cases hrem : (s.max_attempts : Int) - ((c.attempts : Int) + 1) > 0
          · rw [validate_mismatch_rem_branch s st identifier spoken_response ct now c hget
              hexp hover hmatch hrem] at he
            by_cases hct : ct' = c.client_type
            · subst hct
              rw [storageOf_setStorage_same] at he
              rcases mem_updateNs he with h | h
              · exact Or.inl h
              · exact Or.inr ⟨c, rfl, hexp, hover, hrem, h⟩
            · rw [storageOf_setStorage_ne _ _ _ _ hct] at he
              exact Or.inl he
          · rw [validate_mismatch_final_branch s st identifier spoken_response ct now c
              hget hexp hover hmatch hrem] at he
            exact Or.inl (mem_delete_store he)

theorem deleteNs_of_key_not_mem (l : List (String × Challenge)) (k : String)
    (h : k ∉ l.map Prod.fst) : deleteNs l k = l := by
  induction l with
  | nil => rfl
  | cons e l ih =>
    rw [deleteNs_cons]
    have hk : ¬ e.1 = k := fun hh => h (by simp [hh.symm])
    rw [if_neg hk, ih (fun hh => h (by simp; exact Or.inr (by simpa using hh)))]

theorem foldl_deleteNs_cons_of_not_mem (ks : List String) :
    ∀ (e : String × Challenge) (l : List (String × Challenge)), e.1 ∉ ks →
    ks.foldl deleteNs (e :: l) = e :: ks.foldl deleteNs l := by
  induction ks with
  | nil => intro e l _; rfl
  | cons k ks ih =>
    intro e l hmem
    have hk : ¬ e.1 = k := fun hh => hmem (by simp [hh])
    have step : deleteNs (e :: l) k = e :: deleteNs l k := by
      rw [deleteNs_cons, if_neg hk]
    rw [List.foldl_cons, step, List.foldl_cons]
    exact ih e (deleteNs l k) (fun hh => hmem (List.mem_cons_of_mem _ hh))

theorem key_mem_of_mem_filter_keys {l : List (String × Challenge)}
    {p : String × Challenge → Bool} {k : String}
    (h : k ∈ (l.filter p).map Prod.fst) : k ∈ l.map Prod.fst := by
  rcases List.mem_map.1 h with ⟨e, he, hk⟩
  exact List.mem_map.2 ⟨e, List.mem_of_mem_filter he, hk⟩

theorem foldl_deleteNs_eq_filter (p : String × Challenge → Bool) :
    ∀ l : List (String × Challenge), (l.map Prod.fst).Nodup →
    ((l.filter p).map Prod.fst).foldl deleteNs l = l.filter (fun e => ! p e) := by
  intro l
  induction l with
  | nil => intro _; rfl
  | cons e l ih =>
    intro hnd
    rw [List.map_cons, List.nodup_cons] at hnd
    by_cases hp : p e
    · rw [List.filter_cons_of_pos hp, List.map_cons, List.foldl_cons]
      have hdel : deleteNs (e :: l) e.1 = l := by
        rw [deleteNs_cons, if_pos rfl]
        exact deleteNs_of_key_not_mem l e.1 hnd.1
      rw [hdel, ih hnd.2, List.filter_cons_of_neg (by simp [hp])]
    · rw [List.filter_cons_of_neg (by simpa using hp)]
      have hnm : e.1 ∉ (l.filter p).map Prod.fst :=
        fun hh => hnd.1 (key_mem_of_mem_filter_keys hh)
      rw [foldl_deleteNs_cons_of_not_mem _ e _ hnm, ih hnd.2,
        List.filter_cons_of_pos (by simpa using hp)]

theorem sweepNs_spec (before : Int) (l : List (String × Challenge))
    (hnd : (l.map Prod.fst).Nodup) :
    sweepNs before l = ((l.filter (fun e => e.2.is_expired before)).length,
      l.filter (fun e => ! e.2.is_expired before)) := by
  show (((l.filter (fun e => e.2.is_expired before)).map (fun e => e.1)).length,
      ((l.filter (fun e => e.2.is_expired before)).map (fun e => e.1)).foldl deleteNs l) = _
  rw [show List.map (fun (e : String × Challenge) => e.1)
      (l.filter (fun e => e.2.is_expired before)) =
      List.map Prod.fst (l.filter (fun e => e.2.is_expired before)) from rfl]
  rw [List.length_map, foldl_deleteNs_eq_filter _ l hnd]

theorem incorrect_msg_ne_max (x : String) :
    "Incorrect response. " ++ x ++ " attempts remaining." ≠
      "Maximum attempts exceeded. Please start over." := by
  intro h
  have h2 : ("Incorrect response. " ++ x ++ " attempts remaining.").data =
      ("Maximum attempts exceeded. Please start over.").data := by rw [h]
  rw [String.data_append, String.data_append] at h2
  have h3 : "Incorrect response. ".data = 'I' :: "ncorrect response. ".data := rfl
  have h4 : "Maximum attempts exceeded. Please start over.".data =
      'M' :: "aximum attempts exceeded. Please start over.".data := rfl
  rw [h3, h4] at h2
  simp at h2

/-- The pending-status store invariant: preserved by every engine operation. -/
theorem pending_invariant (s : ChallengeSettings) (st : Store) (h : Reachable s st) :
    ∀ ct : ClientType, ∀ e ∈ st.storageOf ct, e.2.status = ChallengeStatus.pending := by
  induction h with
  | init =>
    intro ct e he
    cases ct <;> simp [emptyStore, Store.storageOf] at he
  | create hr hc ih =>
    intro ct' e he
    rcases create_ok_spec hc with ⟨hcdef, hstdef⟩
    rw [hstdef] at he
    rcases mem_insert_store he with h | h
    · exact ih ct' e h
    · rw [h]
      rfl
  | validate hr ih =>
    intro ct' e he
    rcases mem_validate_store he with h | ⟨c, hget, _, _, _, hdef⟩
    · exact ih ct' e h
    · have hc := ih _ _ (lookupNs_eq_some_mem hget)
      rw [hdef]
      simpa [Challenge.increment_attempts] using hc
  | cancel hr ih =>
    intro ct' e he
    exact ih ct' e (mem_delete_store he)
  | sweep hr ih =>
    intro ct' e he
    exact ih ct' e (mem_sweep_store he)

/-- The attempts-bound store invariant: every stored challenge satisfies
`attempts + 1 ≤ max_attempts`, provided `max_attempts ≥ 1`. -/
theorem attempts_invariant (s : ChallengeSettings) (hmax : 1 ≤ s.max_attempts)
    (st : Store) (h : Reachable s st) :
    ∀ ct : ClientType, ∀ e ∈ st.storageOf ct, e.2.attempts + 1 ≤ s.max_attempts := by
  induction h with
  | init =>
    intro ct e he
    cases ct <;> simp [emptyStore, Store.storageOf] at he
  | create hr hc ih =>
    intro ct' e he
    rcases create_ok_spec hc with ⟨hcdef, hstdef⟩
    rw [hstdef] at he
    rcases mem_insert_store he with h | h
    · exact ih ct' e h
    · rw [h]
      simpa [Challenge.make] using hmax
  | validate hr ih =>
    intro ct' e he
    rcases mem_validate_store he with h | ⟨c, hget, _, _, hrem, hdef⟩
    · exact ih ct' e h
    · rw [hdef]
      simp only [Challenge.increment_attempts]
      omega
  | cancel hr ih =>
    intro ct' e he
    exact ih ct' e (mem_delete_store he)
  | sweep hr ih =>
    intro ct' e he
    exact ih ct' e (mem_sweep_store he)

theorem get_after_mismatch_rem (s : ChallengeSettings) (st : Store)
    (identifier spoken_response : String) (ct : ClientType) (now : Int)
    (c : Challenge) (hget : st.get_by_identifier identifier ct = some c)
    (hexp : ¬ now > c.expires_at) (hover : ¬ c.attempts + 1 > s.max_attempts)
    (hmatch : normalize spoken_response ≠ c.phrase)
    (hrem : (s.max_attempts : Int) - ((c.attempts : Int) + 1) > 0)
    (hid : c.identifier = identifier) (hct : c.client_type = ct) :
    ((validate_challenge s st identifier spoken_response ct now).2).get_by_identifier
      identifier ct = some c.increment_attempts := by
  rw [validate_mismatch_rem_branch s st identifier spoken_response ct now c hget hexp
    hover hmatch hrem]
  unfold Store.get_by_identifier
  rw [hct, hid, storageOf_setStorage_same]
  exact lookup_updateNs _ _ _ c hget

/-! ## The claims -/

/-- Claim C1: in `validate_challenge`, expiry is checked strictly before the
attempt counter and the attempt counter strictly before the phrase comparison:
a call made when `now > expires_at` returns the expired denial and removes the
entry for every spoken response (in particular one that normalizes to the
stored phrase), and a call whose post-increment attempt count exceeds
`max_attempts` returns the max-attempts denial for every spoken response. -/
theorem validate_checks_expiry_then_attempts_then_phrase
    (s : ChallengeSettings) (st : Store) (identifier spoken_response : String)
    (ct : ClientType) (now : Int) (c : Challenge)
    (hget : st.get_by_identifier identifier ct = some c) :
    (now > c.expires_at →
      (validate_challenge s st identifier spoken_response ct now).1.message =
        "Challenge expired. Please start over." ∧
      ((validate_challenge s st identifier spoken_response ct now).2).get_by_identifier
        identifier ct = none) ∧
    (¬ now > c.expires_at → c.attempts + 1 > s.max_attempts →
      (validate_challenge s st identifier spoken_response ct now).1.message =
        "Maximum attempts exceeded. Please start over." ∧
      ((validate_challenge s st identifier spoken_response ct now).2).get_by_identifier
        identifier ct = none) := by
  constructor
  · intro hexp
    rw [validate_expired_branch s st identifier spoken_response ct now c hget hexp]
    exact ⟨rfl, get_delete_self st identifier ct⟩
  · intro hexp hover
    rw [validate_over_max_branch s st identifier spoken_response ct now c hget hexp hover]
    exact ⟨rfl, get_delete_self st identifier ct⟩

/-- Witness for C1: an expired challenge answered with the correct phrase
(`"ocean 4"` normalizes to the stored `"ocean four"`) is still denied as
expired and removed. -/
theorem validate_checks_expiry_then_attempts_then_phrase_witness :
    (validate_challenge testSettings expiredStore "s1" "ocean 4" ClientType.alexa 20).1.message =
      "Challenge expired. Please start over." ∧
    ((validate_challenge testSettings expiredStore "s1" "ocean 4" ClientType.alexa 20).2).get_by_identifier
      "s1" ClientType.alexa = none := by
  have h := validate_checks_expiry_then_attempts_then_phrase testSettings expiredStore
    "s1" "ocean 4" ClientType.alexa 20 { testChallenge with expires_at := 10 } (by rfl)
  exact h.1 (by decide)

/-- Claim C5: creating a challenge while a live one exists for the same
`(namespace, identifier)` pair fails with the `AlreadyExists` conflict raised
by `InMemoryChallengeRepository.add`; the error is raised before any mutation,
so no updated store is produced and the caller's store is unchanged. -/
theorem create_challenge_conflict
    (s : ChallengeSettings) (st : Store) (identifier : String) (ct : ClientType)
    (intent : Option String) (now : Int) (rawPhrase : String) (c₀ : Challenge)
    (hlive : st.get_by_identifier identifier ct = some c₀) :
    create_challenge s st identifier ct intent now rawPhrase =
      Except.error RepoError.alreadyExists := by
  have hsome : (lookupNs (st.storageOf ct) identifier).isSome = true := by
    unfold Store.get_by_identifier at hlive
    rw [hlive]
    rfl
  unfold create_challenge Store.add
  simp [Challenge.make, hsome]

/-- Witness for C5: a second create for `("s1", alexa)` on a store already
holding a live challenge there fails with the conflict error. -/
theorem create_challenge_conflict_witness :
    create_challenge testSettings testStore "s1" ClientType.alexa none 50 "ocean four" =
      Except.error RepoError.alreadyExists :=
  create_challenge_conflict testSettings testStore "s1" ClientType.alexa none 50
    "ocean four" testChallenge (by rfl)

/-- Claim C7: a `validate` or `cancel` call on one namespace leaves every lookup
in any other namespace unchanged — in particular a challenge stored under the
same identifier in the other namespace is not consumed, expired, or modified.
The hypothesis `hcons` records the engine's storage discipline (a stored
challenge's `client_type` is the namespace it is stored under), which `add`
establishes and `update` preserves. -/
theorem validate_cancel_leave_other_namespace_unchanged
    (s : ChallengeSettings) (st : Store) (identifier spoken_response : String)
    (ct ct2 : ClientType) (now : Int) (hne : ct2 ≠ ct)
    (hcons : ∀ c, st.get_by_identifier identifier ct = some c → c.client_type = ct) :
    (∀ id2, ((validate_challenge s st identifier spoken_response ct now).2).get_by_identifier
        id2 ct2 = st.get_by_identifier id2 ct2) ∧
    (∀ id2, ((cancel_challenge st identifier ct).2).get_by_identifier id2 ct2 =
        st.get_by_identifier id2 ct2) := by
  constructor
  · intro id2
    unfold Store.get_by_identifier
    rw [validate_frame s st identifier spoken_response ct ct2 now hne hcons]
  · intro id2
    unfold Store.get_by_identifier cancel_challenge
    rw [delete_frame st identifier ct ct2 hne]

/-- Witness for C7: with `"s1"` stored in both namespaces, validating and
cancelling the alexa one leaves the futureproofhome one untouched. -/
theorem validate_cancel_leave_other_namespace_unchanged_witness :
    ((validate_challenge testSettings testStoreBoth "s1" "ocean four" ClientType.alexa 10).2).get_by_identifier
      "s1" ClientType.futureproofhome = some testChallengeF ∧
    ((cancel_challenge testStoreBoth "s1" ClientType.alexa).2).get_by_identifier
      "s1" ClientType.futureproofhome = some testChallengeF := by
  have h := validate_cancel_leave_other_namespace_unchanged testSettings testStoreBoth
    "s1" "ocean four" ClientType.alexa ClientType.futureproofhome 10 (by decide)
    (fun c hc => by
      rw [show testStoreBoth.get_by_identifier "s1" ClientType.alexa = some testChallenge
        from rfl] at hc
      cases hc
      rfl)
  exact ⟨(h.1 "s1").trans rfl, (h.2 "s1").trans rfl⟩

/-- Counterexample to claim C8: the claim says every validate call against a
present challenge increments `attempts` exactly once, including calls rejected
for any reason; but a call rejected as *expired* returns before
`increment_attempts()`. Here a challenge is present with `attempts = 0`, the
call is denied as expired, and the challenge carried in the result still has
`attempts = 0`. -/
theorem validate_expired_call_does_not_increment :
    expiredStore.get_by_identifier "s1" ClientType.alexa ≠ none ∧
    (validate_challenge testSettings expiredStore "s1" "ocean four" ClientType.alexa 20).1.message =
      "Challenge expired. Please start over." ∧
    ((validate_challenge testSettings expiredStore "s1" "ocean four" ClientType.alexa 20).1.challenge.map
      Challenge.attempts) = some 0 := by
  decide

/-- Claim C8 as amended: every validate call against a present challenge that is
*not expired* at call time increments the attempts counter exactly once — in
the result it carries and, if the challenge is still stored afterwards, in the
store — and `attempts` starts at 0 at creation. A call denied as expired does
not increment the counter. -/
theorem validate_increments_attempts_once
    (s : ChallengeSettings) (st : Store) (identifier spoken_response : String)
    (ct : ClientType) (now : Int) (c : Challenge)
    (hget : st.get_by_identifier identifier ct = some c)
    (hexp : ¬ now > c.expires_at)
    (hid : c.identifier = identifier) (hct : c.client_type = ct) :
    ((validate_challenge s st identifier spoken_response ct now).1.challenge.map
      Challenge.attempts = some (c.attempts + 1)) ∧
    (∀ c', ((validate_challenge s st identifier spoken_response ct now).2).get_by_identifier
        identifier ct = some c' → c'.attempts = c.attempts + 1) ∧
    (∀ s' st' id' ct' intent' now' raw' c₀ st₀,
      create_challenge s' st' id' ct' intent' now' raw' = Except.ok (c₀, st₀) →
      c₀.attempts = 0) := by
  refine ⟨?_, ?_, ?_⟩
  · by_cases hover : c.attempts + 1 > s.max_attempts
    · rw [validate_over_max_branch s st identifier spoken_response ct now c hget hexp hover]
      rfl
    · by_cases hmatch : normalize spoken_response = c.phrase
      · rw [validate_success_branch s st identifier spoken_response ct now c hget hexp
          hover hmatch]
        rfl
      · by_cases hrem : (s.max_attempts : Int) - ((c.attempts : Int) + 1) > 0
        · rw [validate_mismatch_rem_branch s st identifier spoken_response ct now c hget
            hexp hover hmatch hrem]
          rfl
        · rw [validate_mismatch_final_branch s st identifier spoken_response ct now c hget
            hexp hover hmatch hrem]
          rfl
  · intro c'
    by_cases hover : c.attempts + 1 > s.max_attempts
    · rw [validate_over_max_branch s st identifier spoken_response ct now c hget hexp hover,
        get_delete_self]
      intro h
      cases h
    · by_cases hmatch : normalize spoken_response = c.phrase
      · rw [validate_success_branch s st identifier spoken_response ct now c hget hexp
          hover hmatch, get_delete_self]
        intro h
        cases h
      · by_cases hrem : (s.max_attempts : Int) - ((c.attempts : Int) + 1) > 0
        · rw [validate_mismatch_rem_branch s st identifier spoken_response ct now c hget
            hexp hover hmatch hrem]
          unfold Store.get_by_identifier
          rw [hct, hid, storageOf_setStorage_same]
          rw [lookup_updateNs (st.storageOf ct) identifier c.increment_attempts c
            (by unfold Store.get_by_identifier at hget; exact hget)]
          intro h
          cases h
          rfl
        · rw [validate_mismatch_final_branch s st identifier spoken_response ct now c hget
            hexp hover hmatch hrem, get_delete_self]
          intro h
          cases h
  · intro s' st' id' ct' intent' now' raw' c₀ st₀ h
    simp only [create_challenge] at h
    cases hadd : Store.add st' (Challenge.make id' (normalize raw') ct'
        ChallengeStatus.pending now' none 0 intent' (some (now' + s'.expiry_seconds))) with
    | ok stx =>
      rw [hadd] at h
      cases h
      rfl
    | error e =>
      rw [hadd] at h
      cases h

/-- Witness for C8 (amended): one wrong answer against a fresh challenge
yields a result challenge with `attempts = 1`. -/
theorem validate_increments_attempts_once_witness :
    ((validate_challenge testSettings testStore "s1" "wrong" ClientType.alexa 10).1.challenge.map
      Challenge.attempts = some 1) := by
  have h := validate_increments_attempts_once testSettings testStore "s1" "wrong"
    ClientType.alexa 10 testChallenge (by rfl) (by decide) (by rfl) (by rfl)
  exact h.1

/-- Counterexample to claim C9: with a configured expiry of 120 seconds, a
`Challenge` constructed without an explicit `expires_at` gets
`created_at + 60` (a constant baked into `__post_init__`), not
`created_at + configured_expiry_seconds`. -/
theorem challenge_default_expiry_ignores_config :
    (Challenge.make "s1" "ocean four" ClientType.alexa ChallengeStatus.pending 0 none 0
      none none).expires_at ≠ 0 + settings120.expiry_seconds := by
  decide

/-- Claim C9 as amended: a `Challenge` constructed without an explicit
`expires_at` defaults it to `created_at` plus a fixed 60 seconds, regardless of
the configured expiry; the service's `create_challenge` never relies on that
default — it always passes `expires_at = now + configured expiry_seconds`
explicitly. -/
theorem challenge_default_expiry_is_sixty
    (identifier phrase : String) (ct : ClientType) (status : ChallengeStatus)
    (created_at : Int) (home_id : Option String) (attempts : Nat)
    (intent : Option String) :
    (Challenge.make identifier phrase ct status created_at home_id attempts intent
      none).expires_at = created_at + 60 ∧
    (∀ s st id' ct' intent' now raw c st',
      create_challenge s st id' ct' intent' now raw = Except.ok (c, st') →
      c.expires_at = now + s.expiry_seconds) := by
  constructor
  · rfl
  · intro s st id' ct' intent' now raw c st' h
    simp only [create_challenge] at h
    cases hadd : Store.add st (Challenge.make id' (normalize raw) ct'
        ChallengeStatus.pending now none 0 intent' (some (now + s.expiry_seconds))) with
    | ok stx =>
      rw [hadd] at h
      cases h
      rfl
    | error e =>
      rw [hadd] at h
      cases h

/-- Witness for C9 (amended): constructed at `created_at = 5` with no explicit
expiry, the challenge expires at 65. -/
theorem challenge_default_expiry_is_sixty_witness :
    (Challenge.make "x" "p" ClientType.alexa ChallengeStatus.pending 5 none 0 none
      none).expires_at = 5 + 60 :=
  (challenge_default_expiry_is_sixty "x" "p" ClientType.alexa ChallengeStatus.pending 5
    none 0 none).1

/-- Claim C2: with `max_attempts = 3`, three consecutive wrong responses against
a fresh unexpired challenge yield: the mismatch denial with 2 attempts
remaining, then the mismatch denial with 1 attempt remaining, then the
max-attempts denial (not the mismatch denial), after which the challenge is no
longer in the store. -/
theorem three_wrong_answers_sequence
    (s : ChallengeSettings) (st : Store) (identifier : String) (ct : ClientType)
    (c : Challenge) (r1 r2 r3 : String) (t1 t2 t3 : Int)
    (hmax : s.max_attempts = 3)
    (hget : st.get_by_identifier identifier ct = some c)
    (hatt : c.attempts = 0) (hid : c.identifier = identifier) (hct : c.client_type = ct)
    (h1 : ¬ t1 > c.expires_at) (h2 : ¬ t2 > c.expires_at) (h3 : ¬ t3 > c.expires_at)
    (hw1 : normalize r1 ≠ c.phrase) (hw2 : normalize r2 ≠ c.phrase)
    (hw3 : normalize r3 ≠ c.phrase) :
    (validate_challenge s st identifier r1 ct t1).1.message =
      "Incorrect response. 2 attempts remaining." ∧
    (validate_challenge s (validate_challenge s st identifier r1 ct t1).2
        identifier r2 ct t2).1.message =
      "Incorrect response. 1 attempts remaining." ∧
    (validate_challenge s (validate_challenge s
        (validate_challenge s st identifier r1 ct t1).2 identifier r2 ct t2).2
        identifier r3 ct t3).1.message =
      "Maximum attempts exceeded. Please start over." ∧
    ((validate_challenge s (validate_challenge s
        (validate_challenge s st identifier r1 ct t1).2 identifier r2 ct t2).2
        identifier r3 ct t3).2).get_by_identifier identifier ct = none := by
  have ha1 : (c.increment_attempts).attempts = 1 := by
    simp [Challenge.increment_attempts, hatt]
  have ha2 : ((c.increment_attempts).increment_attempts).attempts = 2 := by
    simp [Challenge.increment_attempts, hatt]
  have hover1 : ¬ c.attempts + 1 > s.max_attempts := by rw [hatt, hmax]; omega
  have hrem1 : (s.max_attempts : Int) - ((c.attempts : Int) + 1) > 0 := by
    rw [hatt, hmax]; norm_num
  have hover2 : ¬ (c.increment_attempts).attempts + 1 > s.max_attempts := by
    rw [ha1, hmax]; omega
  have hrem2 : (s.max_attempts : Int) - (((c.increment_attempts).attempts : Int) + 1) > 0 := by
    rw [ha1, hmax]; norm_num
  have hover3 : ¬ ((c.increment_attempts).increment_attempts).attempts + 1 > s.max_attempts := by
    rw [ha2, hmax]; omega
  have hrem3 : ¬ (s.max_attempts : Int) -
      ((((c.increment_attempts).increment_attempts).attempts : Int) + 1) > 0 := by
    rw [ha2, hmax]; norm_num
  have g1 : ((validate_challenge s st identifier r1 ct t1).2).get_by_identifier
      identifier ct = some c.increment_attempts :=
    get_after_mismatch_rem s st identifier r1 ct t1 c hget h1 hover1 hw1 hrem1 hid hct
  have g2 : ((validate_challenge s (validate_challenge s st identifier r1 ct t1).2
      identifier r2 ct t2).2).get_by_identifier identifier ct =
      some (c.increment_attempts).increment_attempts :=
    get_after_mismatch_rem s _ identifier r2 ct t2 c.increment_attempts g1 h2 hover2
      hw2 hrem2 hid hct
  refine ⟨?_, ?_, ?_, ?_⟩
  · rw [validate_mismatch_rem_branch s st identifier r1 ct t1 c hget h1 hover1 hw1 hrem1]
    have harg : (s.max_attempts : Int) - ((c.attempts : Int) + 1) = 2 := by
      rw [hatt, hmax]; norm_num
    rw [harg]
    rfl
  · rw [validate_mismatch_rem_branch s _ identifier r2 ct t2 c.increment_attempts g1 h2
      hover2 hw2 hrem2]
    have harg : (s.max_attempts : Int) - (((c.increment_attempts).attempts : Int) + 1) = 1 := by
      rw [ha1, hmax]; norm_num
    rw [harg]
    rfl
  · rw [validate_mismatch_final_branch s _ identifier r3 ct t3
      (c.increment_attempts).increment_attempts g2 h3 hover3 hw3 hrem3]
  · rw [validate_mismatch_final_branch s _ identifier r3 ct t3
      (c.increment_attempts).increment_attempts g2 h3 hover3 hw3 hrem3]
    exact get_delete_self _ identifier ct

/-- Witness for C2: the concrete three-wrong-answers run against the fixture
store. -/
theorem three_wrong_answers_sequence_witness :
    (validate_challenge testSettings testStore "s1" "nope" ClientType.alexa 10).1.message =
      "Incorrect response. 2 attempts remaining." ∧
    (validate_challenge testSettings
        (validate_challenge testSettings testStore "s1" "nope" ClientType.alexa 10).2
        "s1" "nope" ClientType.alexa 20).1.message =
      "Incorrect response. 1 attempts remaining." ∧
    (validate_challenge testSettings (validate_challenge testSettings
        (validate_challenge testSettings testStore "s1" "nope" ClientType.alexa 10).2
        "s1" "nope" ClientType.alexa 20).2 "s1" "nope" ClientType.alexa 30).1.message =
      "Maximum attempts exceeded. Please start over." ∧
    ((validate_challenge testSettings (validate_challenge testSettings
        (validate_challenge testSettings testStore "s1" "nope" ClientType.alexa 10).2
        "s1" "nope" ClientType.alexa 20).2 "s1" "nope" ClientType.alexa 30).2).get_by_identifier
      "s1" ClientType.alexa = none :=
  three_wrong_answers_sequence testSettings testStore "s1" ClientType.alexa testChallenge
    "nope" "nope" "nope" 10 20 30 (by rfl) (by rfl) (by rfl) (by rfl) (by rfl)
    (by decide) (by decide) (by decide) (by decide) (by decide) (by decide)

/-- Claim C3: in every store reachable through the engine operations (create,
validate, cancel, sweep), every stored challenge has status `pending`:
whenever an operation assigns a terminal status (`validated`, `expired`,
`failed`), that same operation deletes the challenge before returning, so no
terminal status is ever stored. -/
theorem reachable_store_only_pending (s : ChallengeSettings) (st : Store)
    (h : Reachable s st) :
    ∀ ct : ClientType, ∀ e ∈ st.storageOf ct, e.2.status = ChallengeStatus.pending :=
  pending_invariant s st h

/-- Witness for C3: the store after one create on the empty store is
reachable, and its stored challenge is pending. -/
theorem reachable_store_only_pending_witness : cW.status = ChallengeStatus.pending := by
  have hr : Reachable testSettings stW :=
    Reachable.create Reachable.init
      (show create_challenge testSettings emptyStore "s1" ClientType.alexa none 0
        "ocean four" = Except.ok (cW, stW) from rfl)
  exact reachable_store_only_pending testSettings stW hr ClientType.alexa ("s1", cW)
    (List.mem_singleton.2 rfl)

/-- Claim C10: with `max_attempts ≥ 1`, every challenge stored in a reachable
store satisfies `attempts ≤ max_attempts - 1` (stated as
`attempts + 1 ≤ max_attempts`): create stores `attempts = 0` and the only
write-back, in the mismatch branch, requires attempts to remain. Hence the
post-increment `attempts > max_attempts` check inside `validate_challenge` is
never satisfied on a reachable store, and the max-attempts denial is produced
only by the mismatch branch when zero attempts remain. -/
theorem reachable_attempts_bound_and_dead_branch (s : ChallengeSettings)
    (hmax : 1 ≤ s.max_attempts) (st : Store) (h : Reachable s st) :
    (∀ ct : ClientType, ∀ e ∈ st.storageOf ct, e.2.attempts + 1 ≤ s.max_attempts) ∧
    (∀ identifier ct c, st.get_by_identifier identifier ct = some c →
      ¬ c.attempts + 1 > s.max_attempts) ∧
    (∀ identifier spoken_response ct now,
      (validate_challenge s st identifier spoken_response ct now).1.message =
        "Maximum attempts exceeded. Please start over." →
      ∃ c, st.get_by_identifier identifier ct = some c ∧ ¬ now > c.expires_at ∧
        normalize spoken_response ≠ c.phrase ∧ c.attempts + 1 = s.max_attempts) := by
  have hinv := attempts_invariant s hmax st h
  refine ⟨hinv, ?_, ?_⟩
  · intro identifier ct c hget
    have hb : c.attempts + 1 ≤ s.max_attempts := hinv ct _ (lookupNs_eq_some_mem hget)
    omega
  · intro identifier spoken_response ct now hmsg
    cases hget : st.get_by_identifier identifier ct with
    | none =>
      rw [validate_no_challenge s st identifier spoken_response ct now hget] at hmsg
      simp at hmsg
    | some c =>
      have hbound : c.attempts + 1 ≤ s.max_attempts :=
        hinv ct _ (lookupNs_eq_some_mem hget)
      by_cases hexp : now > c.expires_at
      · rw [validate_expired_branch s st identifier spoken_response ct now c hget
          hexp] at hmsg
        simp at hmsg
      · have hover : ¬ c.attempts + 1 > s.max_attempts := by omega
        by_cases hmatch : normalize spoken_response = c.phrase
        · rw [validate_success_branch s st identifier spoken_response ct now c hget hexp
            hover hmatch] at hmsg
          simp at hmsg
        · by_cases hrem : (s.max_attempts : Int) - ((c.attempts : Int) + 1) > 0
          · rw [validate_mismatch_rem_branch s st identifier spoken_response ct now c hget
              hexp hover hmatch hrem] at hmsg
            exact absurd hmsg (incorrect_msg_ne_max _)
          · exact ⟨c, rfl, hexp, hmatch, by omega⟩

/-- Claim C6: for every store and timestamp `T`, the expiry sweep removes
exactly the entries whose `expires_at` is strictly before `T`, across both
namespaces, leaves every other entry unchanged (in place, unmodified), returns
the number of entries removed, and returns 0 on the empty store. The `Nodup`
hypotheses record that each namespace is a dict, whose keys are unique. -/
theorem delete_expired_removes_exactly_expired (st : Store) (T : Int)
    (hA : (st.alexa.map Prod.fst).Nodup)
    (hF : (st.futureproofhome.map Prod.fst).Nodup) :
    ((st.delete_expired T).2.alexa =
        st.alexa.filter (fun e => decide (¬ e.2.expires_at < T)) ∧
     (st.delete_expired T).2.futureproofhome =
        st.futureproofhome.filter (fun e => decide (¬ e.2.expires_at < T))) ∧
    (st.delete_expired T).1 =
      (st.alexa.filter (fun e => decide (e.2.expires_at < T))).length +
      (st.futureproofhome.filter (fun e => decide (e.2.expires_at < T))).length ∧
    emptyStore.delete_expired T = (0, emptyStore) := by
  have hfun1 : (fun (e : String × Challenge) => e.2.is_expired T) =
      (fun (e : String × Challenge) => decide (e.2.expires_at < T)) := by
    funext e
    rfl
  have hfun2 : (fun (e : String × Challenge) => ! e.2.is_expired T) =
      (fun (e : String × Challenge) => decide (¬ e.2.expires_at < T)) := by
    funext e
    rw [decide_not]
    rfl
  refine ⟨⟨?_, ?_⟩, ?_, ?_⟩
  · show (sweepNs T st.alexa).2 = _
    rw [sweepNs_spec T st.alexa hA, hfun2]
  · show (sweepNs T st.futureproofhome).2 = _
    rw [sweepNs_spec T st.futureproofhome hF, hfun2]
  · show (sweepNs T st.alexa).1 + (sweepNs T st.futureproofhome).1 = _
    rw [sweepNs_spec T st.alexa hA, sweepNs_spec T st.futureproofhome hF, hfun1]
  · rfl

/-- Witness for C6: sweeping `sweepStore` at `T = 50` keeps exactly the
unexpired entries and counts the expired ones, one per namespace side. -/
theorem delete_expired_removes_exactly_expired_witness :
    ((sweepStore.delete_expired 50).2.alexa =
        sweepStore.alexa.filter (fun e => decide (¬ e.2.expires_at < 50)) ∧
     (sweepStore.delete_expired 50).2.futureproofhome =
        sweepStore.futureproofhome.filter (fun e => decide (¬ e.2.expires_at < 50))) ∧
    (sweepStore.delete_expired 50).1 =
      (sweepStore.alexa.filter (fun e => decide (e.2.expires_at < 50))).length +
      (sweepStore.futureproofhome.filter (fun e => decide (e.2.expires_at < 50))).length ∧
    emptyStore.delete_expired 50 = (0, emptyStore) :=
  delete_expired_removes_exactly_expired sweepStore 50 (by decide) (by decide)

/-! ## Lemmas for the normalizer idempotence analysis -/

theorem toNat_ofNat_of_lt (n : Nat) (h : n < 55296) : (Char.ofNat n).toNat = n := by
  have hv : n.isValidChar := Or.inl h
  simp [Char.ofNat, hv, Char.ofNatAux, Char.toNat, UInt32.toNat]

theorem toLower_idem (c : Char) : (c.toLower).toLower = c.toLower := by
  have key : ∀ d : Char, ¬ (65 ≤ d.toNat ∧ d.toNat ≤ 90) → d.toLower = d := by
    intro d hd
    unfold Char.toLower
    simp only [ge_iff_le]
    rw [if_neg hd]
  by_cases h : 65 ≤ c.toNat ∧ c.toNat ≤ 90
  · have hc : c.toLower = Char.ofNat (c.toNat + 32) := by
      unfold Char.toLower
      simp only [ge_iff_le]
      rw [if_pos h]
    rw [hc]
    apply key
    rw [toNat_ofNat_of_lt _ (by omega)]
    omega
  · rw [key c h, key c h]

theorem map_toLower_eq_self {l : List Char} (h : ∀ c ∈ l, Char.toLower c = c) :
    l.map Char.toLower = l := by
  induction l with
  | nil => rfl
  | cons c l ih =>
    rw [List.map_cons, h c (List.mem_cons_self c l),
      ih (fun d hd => h d (List.mem_cons_of_mem c hd))]

theorem mem_stripL {c : Char} {l : List Char} (h : c ∈ stripL l) : c ∈ l := by
  unfold stripL at h
  rw [List.mem_reverse] at h
  have h1 := (List.dropWhile_sublist pySpace).subset h
  rw [List.mem_reverse] at h1
  exact (List.dropWhile_sublist pySpace).subset h1

theorem mem_replaceAux {pat rep : List Char} {Q : Char → Prop}
    (hrep : ∀ c ∈ rep, Q c) :
    ∀ (fuel : Nat) (l : List Char), (∀ c ∈ l, Q c) →
    ∀ c ∈ replaceAux pat rep fuel l, Q c := by
  intro fuel
  induction fuel with
  | zero =>
    intro l hl c hc
    cases l with
    | nil => simp [replaceAux] at hc
    | cons x xs => exact hl c (by simpa [replaceAux] using hc)
  | succ fuel ih =>
    intro l hl c hc
    cases l with
    | nil => simp [replaceAux] at hc
    | cons x xs =>
      rw [show replaceAux pat rep (fuel + 1) (x :: xs) =
          if pat.isPrefixOf (x :: xs) then
            rep ++ replaceAux pat rep fuel ((x :: xs).drop pat.length)
          else x :: replaceAux pat rep fuel xs from rfl] at hc
      by_cases hp : pat.isPrefixOf (x :: xs)
      · rw [if_pos hp] at hc
        rcases List.mem_append.1 hc with h | h
        · exact hrep c h
        · exact ih _ (fun d hd => hl d (List.drop_subset _ _ hd)) c h
      · rw [if_neg hp] at hc
        rcases List.mem_cons.1 hc with h | h
        · exact h ▸ hl x (List.mem_cons_self x xs)
        · exact ih xs (fun d hd => hl d (List.mem_cons_of_mem x hd)) c h

theorem mem_foldl_replace {Q : Char → Prop} :
    ∀ (tbl : List (List Char × List Char)) (l : List Char),
    (∀ c ∈ l, Q c) → (∀ pr ∈ tbl, ∀ c ∈ pr.2, Q c) →
    ∀ c ∈ tbl.foldl (fun acc pr => pyReplace pr.1 pr.2 acc) l, Q c := by
  intro tbl
  induction tbl with
  | nil => intro l hl _ c hc; exact hl c hc
  | cons pr tbl ih =>
    intro l hl htbl c hc
    rw [List.foldl_cons] at hc
    refine ih _ ?_ (fun q hq => htbl q (List.mem_cons_of_mem pr hq)) c hc
    exact mem_replaceAux (htbl pr (List.mem_cons_self pr tbl)) _ l hl

theorem mem_wordsAux {Q : Char → Prop} :
    ∀ (l acc : List Char), (∀ c ∈ l, Q c) → (∀ c ∈ acc, Q c) →
    ∀ w ∈ wordsAux l acc, ∀ c ∈ w, Q c := by
  intro l
  induction l with
  | nil =>
    intro acc _ hacc w hw c hc
    by_cases he : acc.isEmpty
    · simp [wordsAux, he] at hw
    · rw [show wordsAux [] acc = [acc.reverse] from by simp [wordsAux, he]] at hw
      rw [List.mem_singleton.1 hw, List.mem_reverse] at hc
      exact hacc c hc
  | cons x xs ih =>
    intro acc hl hacc w hw c hc
    by_cases hs : pySpace x
    · by_cases he : acc.isEmpty
      · rw [show wordsAux (x :: xs) acc = wordsAux xs [] from by
          simp [wordsAux, hs, he]] at hw
        exact ih [] (fun d hd => hl d (List.mem_cons_of_mem x hd)) (by simp) w hw c hc
      · rw [show wordsAux (x :: xs) acc = acc.reverse :: wordsAux xs [] from by
          simp [wordsAux, hs, he]] at hw
        rcases List.mem_cons.1 hw with h | h
        · rw [h, List.mem_reverse] at hc
          exact hacc c hc
        · exact ih [] (fun d hd => hl d (List.mem_cons_of_mem x hd)) (by simp) w h c hc
    · rw [show wordsAux (x :: xs) acc = wordsAux xs (x :: acc) from by
        simp [wordsAux, hs]] at hw
      refine ih (x :: acc) (fun d hd => hl d (List.mem_cons_of_mem x hd)) ?_ w hw c hc
      intro d hd
      rcases List.mem_cons.1 hd with h | h
      · exact h ▸ hl x (List.mem_cons_self x xs)
      · exact hacc d h

theorem mem_joinWords {Q : Char → Prop} (hsp : Q ' ') :
    ∀ (ws : List (List Char)), (∀ w ∈ ws, ∀ c ∈ w, Q c) → ∀ c ∈ joinWords ws, Q c := by
  intro ws
  induction ws with
  | nil => intro _ c hc; simp [joinWords] at hc
  | cons w ws ih =>
    intro hws c hc
    cases ws with
    | nil =>
      exact hws w (List.mem_singleton.2 rfl) c (by simpa [joinWords] using hc)
    | cons v vs =>
      rw [show joinWords (w :: v :: vs) = w ++ ' ' :: joinWords (v :: vs) from rfl] at hc
      rcases List.mem_append.1 hc with h | h
      · exact hws w (List.mem_cons_self w _) c h
      · rcases List.mem_cons.1 h with h | h
        · exact h ▸ hsp
        · exact ih (fun u hu => hws u (List.mem_cons_of_mem w hu)) c h

theorem normalizeL_chars_lower (l : List Char) :
    ∀ c ∈ normalizeL l, Char.toLower c = c := by
  have h1 : ∀ c ∈ l.map Char.toLower, Char.toLower c = c := by
    intro c hc
    rcases List.mem_map.1 hc with ⟨d, _, rfl⟩
    exact toLower_idem d
  have h2 : ∀ c ∈ stripL (l.map Char.toLower), Char.toLower c = c :=
    fun c hc => h1 c (mem_stripL hc)
  have h3 : ∀ c ∈ ' ' :: stripL (l.map Char.toLower) ++ [' '], Char.toLower c = c := by
    intro c hc
    rcases List.mem_cons.1 hc with h | h
    · rw [h]; decide
    · rcases List.mem_append.1 h with h | h
      · exact h2 c h
      · rw [List.mem_singleton.1 h]; decide
  have h4 : ∀ c ∈ applyReplacements (' ' :: stripL (l.map Char.toLower) ++ [' ']),
      Char.toLower c = c :=
    mem_foldl_replace normalizeReplacements _ h3 (by decide)
  have h5 : ∀ w ∈ wordsL (applyReplacements (' ' :: stripL (l.map Char.toLower) ++ [' '])),
      ∀ c ∈ w, Char.toLower c = c :=
    mem_wordsAux _ [] h4 (by simp)
  exact mem_joinWords (by decide) _ h5

theorem wordsAux_wf :
    ∀ (l acc : List Char), (∀ c ∈ acc, pySpace c = false) →
    ∀ w ∈ wordsAux l acc, w ≠ [] ∧ ∀ c ∈ w, pySpace c = false := by
  intro l
  induction l with
  | nil =>
    intro acc hacc w hw
    by_cases he : acc.isEmpty
    · simp [wordsAux, he] at hw
    · rw [show wordsAux [] acc = [acc.reverse] from by simp [wordsAux, he]] at hw
      rw [List.mem_singleton.1 hw]
      constructor
      · simpa using fun hnil => he (by simp [hnil])
      · intro c hc
        rw [List.mem_reverse] at hc
        exact hacc c hc
  | cons x xs ih =>
    intro acc hacc w hw
    by_cases hs : pySpace x
    · by_cases he : acc.isEmpty
      · rw [show wordsAux (x :: xs) acc = wordsAux xs [] from by
          simp [wordsAux, hs, he]] at hw
        exact ih [] (by simp) w hw
      · rw [show wordsAux (x :: xs) acc = acc.reverse :: wordsAux xs [] from by
          simp [wordsAux, hs, he]] at hw
        rcases List.mem_cons.1 hw with h | h
        · rw [h]
          constructor
          · simpa using fun hnil => he (by simp [hnil])
          · intro c hc
            rw [List.mem_reverse] at hc
            exact hacc c hc
        · exact ih [] (by simp) w h
    · rw [show wordsAux (x :: xs) acc = wordsAux xs (x :: acc) from by
        simp [wordsAux, hs]] at hw
      refine ih (x :: acc) ?_ w hw
      intro c hc
      rcases List.mem_cons.1 hc with h | h
      · rw [h]
        simpa using hs
      · exact hacc c h

theorem wordsAux_append (w : List Char) (hw : ∀ c ∈ w, pySpace c = false) :
    ∀ (l acc : List Char), wordsAux (w ++ l) acc = wordsAux l (w.reverse ++ acc) := by
  induction w with
  | nil => intro l acc; simp
  | cons x w ih =>
    intro l acc
    have hx : pySpace x = false := hw x (List.mem_cons_self x w)
    rw [List.cons_append,
      show wordsAux (x :: (w ++ l)) acc = wordsAux (w ++ l) (x :: acc) from by
        simp [wordsAux, hx],
      ih (fun c hc => hw c (List.mem_cons_of_mem x hc)) l (x :: acc)]
    simp

theorem wordsAux_join :
    ∀ ws : List (List Char), (∀ w ∈ ws, w ≠ [] ∧ ∀ c ∈ w, pySpace c = false) →
    wordsAux (joinWords ws ++ [' ']) [] = ws := by
  intro ws
  induction ws with
  | nil => intro _; rfl
  | cons w ws ih =>
    intro hwf
    have hw := hwf w (List.mem_cons_self w ws)
    have hne : w.reverse.isEmpty = false := by
      rcases List.exists_cons_of_ne_nil hw.1 with ⟨c, w', rfl⟩
      simp
    cases ws with
    | nil =>
      rw [show joinWords [w] = w from rfl, wordsAux_append w hw.2 [' '] []]
      rw [show wordsAux [' '] (w.reverse ++ []) =
        (w.reverse ++ []).reverse :: wordsAux [] [] from by simp [wordsAux, pySpace, hne]]
      simp [wordsAux]
    | cons v vs =>
      rw [show joinWords (w :: v :: vs) = w ++ ' ' :: joinWords (v :: vs) from rfl]
      rw [List.append_assoc, List.cons_append, wordsAux_append w hw.2 _ []]
      rw [show wordsAux (' ' :: (joinWords (v :: vs) ++ [' '])) (w.reverse ++ []) =
        (w.reverse ++ []).reverse :: wordsAux (joinWords (v :: vs) ++ [' ']) [] from by
          simp [wordsAux, pySpace, hne]]
      rw [ih (fun u hu => hwf u (List.mem_cons_of_mem w hu))]
      simp

theorem dropWhile_joinWords :
    ∀ ws : List (List Char), (∀ w ∈ ws, w ≠ [] ∧ ∀ c ∈ w, pySpace c = false) →
    (joinWords ws).dropWhile pySpace = joinWords ws := by
  intro ws hwf
  cases ws with
  | nil => rfl
  | cons w ws =>
    have hw := hwf w (List.mem_cons_self w ws)
    rcases List.exists_cons_of_ne_nil hw.1 with ⟨c, w', hwc⟩
    have hc : pySpace c = false := hw.2 c (by rw [hwc]; exact List.mem_cons_self c w')
    cases ws with
    | nil =>
      rw [show joinWords [w] = w from rfl, hwc, List.dropWhile_cons, hc]
      simp
    | cons v vs =>
      rw [show joinWords (w :: v :: vs) = w ++ ' ' :: joinWords (v :: vs) from rfl, hwc,
        List.cons_append, List.dropWhile_cons, hc]
      simp

theorem reverse_joinWords_head :
    ∀ ws : List (List Char), (∀ w ∈ ws, w ≠ [] ∧ ∀ c ∈ w, pySpace c = false) →
    (joinWords ws).reverse = [] ∨
    ∃ c rest, (joinWords ws).reverse = c :: rest ∧ pySpace c = false := by
  intro ws
  induction ws with
  | nil => intro _; exact Or.inl rfl
  | cons w ws ih =>
    intro hwf
    have hw := hwf w (List.mem_cons_self w ws)
    cases ws with
    | nil =>
      right
      cases hrev : w.reverse with
      | nil => exact absurd (by simpa using hrev) hw.1
      | cons c rest =>
        refine ⟨c, rest, by rw [show joinWords [w] = w from rfl, hrev], ?_⟩
        have hc : c ∈ w := by
          rw [← List.mem_reverse, hrev]
          exact List.mem_cons_self c rest
        exact hw.2 c hc
    | cons v vs =>
      right
      have hv := hwf v (List.mem_cons_of_mem w (List.mem_cons_self v vs))
      have hJne : joinWords (v :: vs) ≠ [] := by
        cases vs with
        | nil => simpa [joinWords] using hv.1
        | cons u us =>
          rw [show joinWords (v :: u :: us) = v ++ ' ' :: joinWords (u :: us) from rfl]
          rcases List.exists_cons_of_ne_nil hv.1 with ⟨d, v', rfl⟩
          simp
      rcases ih (fun u hu => hwf u (List.mem_cons_of_mem w hu)) with h | ⟨c, rest, h, hc⟩
      · exact absurd (by simpa using h) hJne
      · refine ⟨c, rest ++ [' '] ++ w.reverse, ?_, hc⟩
        rw [show joinWords (w :: v :: vs) = w ++ ' ' :: joinWords (v :: vs) from rfl,
          List.reverse_append, List.reverse_cons, h]
        simp

theorem stripL_joinWords (ws : List (List Char))
    (hwf : ∀ w ∈ ws, w ≠ [] ∧ ∀ c ∈ w, pySpace c = false) :
    stripL (joinWords ws) = joinWords ws := by
  unfold stripL
  rw [dropWhile_joinWords ws hwf]
  rcases reverse_joinWords_head ws hwf with h | ⟨c, rest, h, hc⟩
  · rw [h]
    simpa using h
  · rw [h, List.dropWhile_cons]
    simp only [hc, Bool.false_eq_true, if_false]
    rw [← h, List.reverse_reverse]

/-- Witness for C10: on the reachable one-challenge store, the stored
challenge's post-increment count does not exceed `max_attempts`. -/
theorem reachable_attempts_bound_and_dead_branch_witness :
    ¬ cW.attempts + 1 > testSettings.max_attempts := by
  have hr : Reachable testSettings stW :=
    Reachable.create Reachable.init
      (show create_challenge testSettings emptyStore "s1" ClientType.alexa none 0
        "ocean four" = Except.ok (cW, stW) from rfl)
  exact (reachable_attempts_bound_and_dead_branch testSettings (by decide) stW hr).2.1
    "s1" ClientType.alexa cW (by rfl)

/-- Counterexample to claim C4: `normalize` is not idempotent. Python's
`str.replace` substitutes non-overlapping occurrences left to right, so in
`" for for "` only the first `" for "` is replaced (the second shares the
middle space): `normalize "for for" = "four for"`, while a second application
also folds the remaining `"for"`, giving `"four four"`. -/
theorem normalize_not_idempotent :
    normalize (normalize "for for") ≠ normalize "for for" ∧
    normalize "for for" = "four for" ∧
    normalize (normalize "for for") = "four four" := by
  decide

theorem normalize_eq (s : String) : normalize s = String.mk (normalizeL s.data) := rfl

theorem data_mk (l : List Char) : (String.mk l).data = l := rfl

theorem normalizeL_eq (l : List Char) :
    normalizeL l = joinWords (wordsL (applyReplacements
      (' ' :: stripL (l.map Char.toLower) ++ [' ']))) := rfl

theorem wordsL_pad_join (ws : List (List Char))
    (hwf : ∀ w ∈ ws, w ≠ [] ∧ ∀ c ∈ w, pySpace c = false) :
    wordsL (' ' :: joinWords ws ++ [' ']) = ws := by
  rw [show wordsL (' ' :: joinWords ws ++ [' ']) =
      wordsAux (joinWords ws ++ [' ']) [] from by simp [wordsL, wordsAux, pySpace]]
  exact wordsAux_join ws hwf

/-- Claim C4 as amended: `normalize` is idempotent on every string `s` for which
a second run of the homophone/digit replacement passes leaves the padded
normalized form unchanged — equivalently, `normalize s` contains no residual
replaceable span. In general idempotence fails (see the counterexample
`s = "for for"`, where the first pass leaves a replaceable `" for "` behind). -/
theorem normalize_idempotent_of_replacements_settled (s : String)
    (h : applyReplacements (' ' :: (normalize s).data ++ [' ']) =
      ' ' :: (normalize s).data ++ [' ']) :
    normalize (normalize s) = normalize s := by
  have hdata : (normalize s).data = normalizeL s.data :=
    (congrArg String.data (normalize_eq s)).trans (data_mk _)
  rw [hdata] at h
  have hwf : ∀ w ∈ wordsL (applyReplacements
      (' ' :: stripL (s.data.map Char.toLower) ++ [' '])),
      w ≠ [] ∧ ∀ c ∈ w, pySpace c = false :=
    wordsAux_wf _ [] (by simp)
  have hout := normalizeL_eq s.data
  have key : normalizeL (normalizeL s.data) = normalizeL s.data := by
    rw [normalizeL_eq (normalizeL s.data)]
    rw [map_toLower_eq_self (normalizeL_chars_lower s.data)]
    rw [show stripL (normalizeL s.data) = normalizeL s.data from by
      rw [hout]; exact stripL_joinWords _ hwf]
    rw [h]
    rw [hout]
    rw [wordsL_pad_join _ hwf]
  rw [normalize_eq (normalize s), hdata, key, normalize_eq s]

/-- Witness for C4 (amended): `"ocean 4"` normalizes to `"ocean four"`, whose
padded form the replacement passes leave unchanged, so a second normalize is
the identity on it. -/
theorem normalize_idempotent_of_replacements_settled_witness :
    normalize (normalize "ocean 4") = normalize "ocean 4" :=
  normalize_idempotent_of_replacements_settled "ocean 4" (by decide)

end VoiceOrchestrator
